import Mathlib

/-!
Verification development for the onto-show ontology service.

Shallow embedding of:
- `app/utils/ontology_parser.py` (`parse_ontology`, `save_nodes_to_json`)
- `app/services/ontology_service.py` (`OntologyService`)
- `app/utils/xml_cleaner.py` (`XMLCleaner.escape_xml_chars` / `unescape_xml_chars`)
- `back-end/app/models/schema.py` (`TreeNode`, `ParentRelation`, `ChildRelation`)

The rdflib triple store is modelled as a list of triples; Python dicts as
association lists with insertion-order semantics; Python strings as Lean
strings (with hand-rolled, kernel-evaluable helpers for `split`, `lower`,
`in` and `replace` mirroring CPython semantics on the relevant inputs).
File I/O and wall-clock time are passed in as explicit parameters.
-/

/-! ## RDF terms and triples (the rdflib interface consumed by the parser) -/

/-- An RDF term: a URI reference (blank nodes are included here, identified by
their `str()` form, exactly what the Python code observes) or a literal with an
optional language tag.  `rdflib.term.Literal.language` is `None` for untagged
literals. -/
inductive RTerm where
  | uri (s : String)
  | lit (value : String) (lang : Option String)
deriving DecidableEq

/-- A subject/predicate/object statement. -/
structure Triple where
  s : RTerm
  p : RTerm
  o : RTerm
deriving DecidableEq

/-- The triple store content, as enumerated by rdflib iteration. -/
abbrev RDFGraph := List Triple

/-- `str()` of an rdflib term: the URI text for URI refs, the lexical value for
literals. -/
def termStr : RTerm → String
  | .uri s => s
  | .lit v _ => v

def RDF_type : RTerm := .uri "http://www.w3.org/1999/02/22-rdf-syntax-ns#type"
def RDFS_subClassOf : RTerm := .uri "http://www.w3.org/2000/01/rdf-schema#subClassOf"
def RDFS_label : RTerm := .uri "http://www.w3.org/2000/01/rdf-schema#label"
def OWL_Class : RTerm := .uri "http://www.w3.org/2002/07/owl#Class"
def OWL_Restriction : RTerm := .uri "http://www.w3.org/2002/07/owl#Restriction"
def OWL_onProperty : RTerm := .uri "http://www.w3.org/2002/07/owl#onProperty"
def OWL_someValuesFrom : RTerm := .uri "http://www.w3.org/2002/07/owl#someValuesFrom"
/-- `OBO["BFO_0000050"]`, the designated part-of property. -/
def PART_OF : RTerm := .uri "http://purl.obolibrary.org/obo/BFO_0000050"
/-- `OBOINOWL.id`, the designated external-id annotation property. -/
def OBOINOWL_id : RTerm := .uri "http://www.geneontology.org/formats/oboInOwl#id"
/-- `OBO["IAO_0000115"]`, the definition annotation property. -/
def IAO_0000115 : RTerm := .uri "http://purl.obolibrary.org/obo/IAO_0000115"

/-- `g.subjects(p, o)`: subjects of all triples with the given predicate and
object. -/
def subjectsOf (g : RDFGraph) (p o : RTerm) : List RTerm :=
  (g.filter (fun t => decide (t.p = p) && decide (t.o = o))).map Triple.s

/-- `g.objects(s, p)`: objects of all triples with the given subject and
predicate. -/
def objectsOf (g : RDFGraph) (s p : RTerm) : List RTerm :=
  (g.filter (fun t => decide (t.s = s) && decide (t.p = p))).map Triple.o

/-- `(s, p, o) in g`. -/
def hasTriple (g : RDFGraph) (t : Triple) : Bool :=
  decide (t ∈ g)

/-- `g.triples((None, RDFS.subClassOf, None))`. -/
def subClassOfTriples (g : RDFGraph) : List Triple :=
  g.filter (fun t => decide (t.p = RDFS_subClassOf))

/-- `_get_literal(g, subject, predicate, lang)`: the first literal object of
`(subject, predicate)` whose language tag matches (`lang is None` accepts any
literal; otherwise the tag must equal `lang` exactly).  Non-literal objects and
wrong-language literals are skipped. -/
def get_literal (g : RDFGraph) (s p : RTerm) (lang : Option String) : Option String :=
  (objectsOf g s p).findSome? (fun o =>
    match o with
    | .lit v l => if lang = none ∨ l = lang then some v else none
    | .uri _ => none)

/-! ## Python string helpers -/

/-- Python `text.split("/")`, character-list based so that it evaluates in the
kernel. -/
def splitOnChar (sep : Char) : List Char → List (List Char)
  | [] => [[]]
  | c :: rest =>
    match splitOnChar sep rest with
    | [] => [[]]
    | cur :: parts => if c = sep then [] :: cur :: parts else (c :: cur) :: parts

/-- Python `text.split("/")[-1]`: the final path segment (the whole string when
no slash occurs, `""` for a trailing slash). -/
def lastSegment (s : String) : String :=
  String.mk ((splitOnChar '/' s.toList).getLastD [])

/-- Python `a or b` where `a` is an optional string: `b` when `a` is `None` or
the empty string (falsy), else the string in `a`. -/
def pyOrStr (a : Option String) (b : String) : String :=
  match a with
  | some v => if v = "" then b else v
  | none => b

/-- Python `s.lower()` (ASCII case folding, which is what the ontology ids and
labels exercise). -/
def pyLower (s : String) : String :=
  String.mk (s.toList.map Char.toLower)

/-- Whether `needle` occurs as a contiguous run inside `hay`. -/
def containsSub (hay needle : List Char) : Bool :=
  match hay with
  | [] => needle.isEmpty
  | _ :: rest => needle.isPrefixOf hay || containsSub rest needle

/-- Python `needle in hay` on strings: substring containment. -/
def strContains (hay needle : String) : Bool :=
  containsSub hay.toList needle.toList

/-! ## Data model (`back-end/app/models/schema.py`) -/

/-- `ParentRelation`. -/
structure ParentRelation where
  parentId : String
  relationType : String
deriving DecidableEq

/-- `ChildRelation`. -/
structure ChildRelation where
  childId : String
  relationType : String
deriving DecidableEq

/-- `TreeNode`, with the pydantic field defaults. -/
structure TreeNode where
  id : String
  label : Option String := none
  label_zh : Option String := none
  definition : Option String := none
  definition_zh : Option String := none
  iri : Option String := none
  isLeaf : Bool := true
  count : Nat := 0
  children : List ChildRelation := []
  parents : List ParentRelation := []
deriving DecidableEq

/-! ## The node dictionary

A Python `Dict[str, TreeNode]` with insertion-order iteration, modelled as an
association list.  Keys stay unique because assignment replaces in place and
fresh keys are appended at the end. -/

abbrev NodeDict := List (String × TreeNode)

/-- Key lookup (first matching entry). -/
def findNode : NodeDict → String → Option TreeNode
  | [], _ => none
  | (k', v) :: d, k => if k' = k then some v else findNode d k

/-- In-place update of the (first) entry with key `k`. -/
def modifyNode : NodeDict → String → (TreeNode → TreeNode) → NodeDict
  | [], _, _ => []
  | (k', v) :: d, k, f => if k' = k then (k', f v) :: d else (k', v) :: modifyNode d k f

/-- Python `dict[k] = v`: replace in place when the key exists, else append. -/
def dictSet (d : NodeDict) (k : String) (v : TreeNode) : NodeDict :=
  if (findNode d k).isSome then modifyNode d k (fun _ => v) else d ++ [(k, v)]

/-- `dict.values()` in iteration order. -/
def dictValues (d : NodeDict) : List TreeNode :=
  d.map Prod.snd

/-- `TreeNode(id=node_id)`: the dangling stub created for a relation endpoint
that has not been declared as a class. -/
def stubNode (k : String) : TreeNode :=
  { id := k }

/-- `if node_id not in nodes: nodes[node_id] = TreeNode(id=node_id)`. -/
def ensureNode (d : NodeDict) (k : String) : NodeDict :=
  if (findNode d k).isSome then d else d ++ [(k, stubNode k)]

/-! ## `parse_ontology` (`app/utils/ontology_parser.py`) -/

/-- Step 1 id resolution:
`_get_literal(g, s, OBOINOWL.id) or iri.split("/")[-1]`. -/
def step1NodeId (g : RDFGraph) (s : RTerm) : String :=
  pyOrStr (get_literal g s OBOINOWL_id none) (lastSegment (termStr s))

/-- Step 2 child id resolution (same expression, at its own call site). -/
def step2ChildId (g : RDFGraph) (s : RTerm) : String :=
  pyOrStr (get_literal g s OBOINOWL_id none) (lastSegment (termStr s))

/-- Step 2 parent id resolution. -/
def step2ParentId (g : RDFGraph) (o : RTerm) : String :=
  pyOrStr (get_literal g o OBOINOWL_id none) (lastSegment (termStr o))

/-- Step 3 child id resolution. -/
def step3ChildId (g : RDFGraph) (s : RTerm) : String :=
  pyOrStr (get_literal g s OBOINOWL_id none) (lastSegment (termStr s))

/-- Step 3 restriction-target id resolution. -/
def step3TargetId (g : RDFGraph) (parentUri : RTerm) : String :=
  pyOrStr (get_literal g parentUri OBOINOWL_id none) (lastSegment (termStr parentUri))

/-- The `TreeNode` built for a declared `owl:Class` in Step 1. -/
def mkClassNode (g : RDFGraph) (s : RTerm) : TreeNode :=
  { id := step1NodeId g s
  , label := get_literal g s RDFS_label none
  , label_zh := get_literal g s RDFS_label (some "zh")
  , definition := get_literal g s IAO_0000115 none
  , definition_zh := get_literal g s IAO_0000115 (some "zh")
  , iri := some (termStr s) }

/-- Step 1: one node per entity typed `owl:Class`. -/
def step1 (g : RDFGraph) : NodeDict :=
  (subjectsOf g RDF_type OWL_Class).foldl
    (fun d s => dictSet d (step1NodeId g s) (mkClassNode g s)) []

/-- The shared edge-insertion block of Steps 2 and 3: create missing endpoint
stubs, append the parent edge on the child, append the child edge on the
parent, and clear the parent's leaf flag. -/
def addEdge (d : NodeDict) (childId parentId relType : String) : NodeDict :=
  let d1 := ensureNode d childId
  let d2 := ensureNode d1 parentId
  let d3 := modifyNode d2 childId
    (fun n => { n with parents := n.parents ++ [⟨parentId, relType⟩] })
  modifyNode d3 parentId
    (fun n => { n with children := n.children ++ [⟨childId, relType⟩], isLeaf := false })

/-- Step 2 body for one `rdfs:subClassOf` triple: skip it when the object is
typed `owl:Restriction`, else add a reciprocal `subClassOf` edge pair. -/
def step2Body (g : RDFGraph) (d : NodeDict) (t : Triple) : NodeDict :=
  if hasTriple g ⟨t.o, RDF_type, OWL_Restriction⟩ then d
  else addEdge d (step2ChildId g t.s) (step2ParentId g t.o) "subClassOf"

/-- Step 2: direct subclass edges. -/
def step2 (g : RDFGraph) (d : NodeDict) : NodeDict :=
  (subClassOfTriples g).foldl (step2Body g) d

/-- The inner Step 3 loop over `owl:someValuesFrom` objects of a matching
restriction: one reciprocal `partOf` edge pair per target. -/
def addPartOfEdges (g : RDFGraph) (s r : RTerm) (d : NodeDict) : NodeDict :=
  (objectsOf g r OWL_someValuesFrom).foldl
    (fun d2 parentUri => addEdge d2 (step3ChildId g s) (step3TargetId g parentUri) "partOf") d

/-- Step 3 processing of one restriction-typed `rdfs:subClassOf` object: for
every `owl:onProperty` value whose `str()` equals `str(PART_OF)`, walk the
`owl:someValuesFrom` targets. -/
def step3One (g : RDFGraph) (d : NodeDict) (s r : RTerm) : NodeDict :=
  (objectsOf g r OWL_onProperty).foldl
    (fun d1 prop => if termStr prop = termStr PART_OF then addPartOfEdges g s r d1 else d1) d

/-- Step 3 body for one `rdfs:subClassOf` triple. -/
def step3Body (g : RDFGraph) (d : NodeDict) (t : Triple) : NodeDict :=
  if hasTriple g ⟨t.o, RDF_type, OWL_Restriction⟩ then step3One g d t.s t.o else d

/-- Step 3: restriction-encoded part-of edges. -/
def step3 (g : RDFGraph) (d : NodeDict) : NodeDict :=
  (subClassOfTriples g).foldl (step3Body g) d

/-- Step 4: `node.count = len(node.children)` for every node. -/
def step4 (d : NodeDict) : NodeDict :=
  d.map (fun e => (e.1, { e.2 with count := e.2.children.length }))

/-- `parse_ontology`, after the document has been loaded into the triple
store: the four ordered build passes. -/
def parse_ontology (g : RDFGraph) : NodeDict :=
  step4 (step3 g (step2 g (step1 g)))

/-! ## Query service (`app/services/ontology_service.py`) -/

/-- The mutable service fields `_cache` / `_cache_timestamp`. -/
structure ServiceState where
  cache : Option NodeDict
  cacheTimestamp : Option Int
deriving DecidableEq

/-- The hard-coded one-hour cache validity window. -/
def CACHE_TTL : Int := 3600

/-- The rebuild condition of `_get_parsed_data`:
`self._cache is None or self._cache_timestamp is None or
 current_time - self._cache_timestamp > 3600`. -/
def needsRebuild (st : ServiceState) (now : Int) : Bool :=
  st.cache.isNone || st.cacheTimestamp.isNone ||
    decide (now - st.cacheTimestamp.getD 0 > CACHE_TTL)

/-- `_get_parsed_data`, with the wall clock and the outcome of
`parse_ontology(self.owl_file_path)` passed in explicitly (`none` models the
parse raising because the document could not be loaded).  The result pairs the
returned value (`none` = the exception propagates) with the post-call service
state. -/
def get_parsed_data (source : Option NodeDict) (st : ServiceState) (now : Int) :
    Option NodeDict × ServiceState :=
  if needsRebuild st now then
    match source with
    | none => (none, st)
    | some g => (some g, { cache := some g, cacheTimestamp := some now })
  else
    (st.cache, st)

/-- `clear_cache`: reset both fields to `None`. -/
def clear_cache (_st : ServiceState) : ServiceState :=
  { cache := none, cacheTimestamp := none }

/-- One per-term field check of `search_terms`:
`term.<field> and query_lower in term.<field>.lower()` (an absent or empty
field is falsy and never matches). -/
def fieldMatch (ql : String) (f : Option String) : Bool :=
  match f with
  | none => false
  | some s => decide (s ≠ "") && strContains (pyLower s) ql

/-- `search_terms(query)` over the parsed data: walk `data.values()`, append a
term on its first matching field (label, label_zh, definition, definition_zh,
in that order), else move on. -/
def search_terms (query : String) (data : NodeDict) : List TreeNode :=
  let ql := pyLower query
  (dictValues data).foldl
    (fun results term =>
      if fieldMatch ql term.label then results ++ [term]
      else if fieldMatch ql term.label_zh then results ++ [term]
      else if fieldMatch ql term.definition then results ++ [term]
      else if fieldMatch ql term.definition_zh then results ++ [term]
      else results) []

/-- The statistics record returned by `get_statistics`. -/
structure Stats where
  total_terms : Nat
  total_classes : Nat
  total_relations : Nat
  subClassOf_relations : Nat
  partOf_relations : Nat
  leaf_nodes : Nat
  max_depth : Nat
deriving DecidableEq

/-- The inner relation-counting loop of `get_statistics` over one term's
parent edges (`if relationType == "subClassOf" ... elif == "partOf"`). -/
def relCounts (parents : List ParentRelation) (sp : Nat × Nat) : Nat × Nat :=
  parents.foldl
    (fun sp p =>
      if p.relationType = "subClassOf" then (sp.1 + 1, sp.2)
      else if p.relationType = "partOf" then (sp.1, sp.2 + 1)
      else sp) sp

/-- The per-term accumulator step of the `get_statistics` loop:
(subClassOf count, partOf count, leaf count, max depth). -/
def statsStep (a : Nat × Nat × Nat × Nat) (t : TreeNode) : Nat × Nat × Nat × Nat :=
  let sp := relCounts t.parents (a.1, a.2.1)
  (sp.1, sp.2, (if t.isLeaf then a.2.2.1 + 1 else a.2.2.1), max a.2.2.2 t.parents.length)

/-- `get_statistics` over the parsed data. -/
def get_statistics (data : NodeDict) : Stats :=
  let terms := dictValues data
  let a := terms.foldl statsStep (0, 0, 0, 0)
  { total_terms := terms.length
  , total_classes := terms.length
  , total_relations := a.1 + a.2.1
  , subClassOf_relations := a.1
  , partOf_relations := a.2.1
  , leaf_nodes := a.2.2.1
  , max_depth := a.2.2.2 }

/-! ## Export (`save_nodes_to_json`) -/

/-- The `metadata` object of the exported JSON. -/
structure ExportMetadata where
  total_nodes : Nat
  generated_at : String
  description : String
deriving DecidableEq

/-- The full exported object (`output_data`). -/
structure ExportData where
  metadata : ExportMetadata
  nodes : NodeDict
deriving DecidableEq

/-- `save_nodes_to_json`, with the two `datetime.now()` renderings passed in
(`ts` for `strftime("%Y%m%d_%H%M%S")`, `iso` for `isoformat()`); writing the
file to disk is outside the model, so the function returns the chosen output
path together with the serialized object. -/
def save_nodes_to_json (nodes : NodeDict) (output_file : Option String)
    (ts iso : String) : String × ExportData :=
  let out := match output_file with
    | none => "ontology_nodes_" ++ ts ++ ".json"
    | some f => f
  let nodes_data := nodes.map (fun e => (e.1, e.2))
  (out,
    { metadata :=
        { total_nodes := nodes.length
        , generated_at := iso
        , description := "Parsed ontology nodes from OWL file" }
    , nodes := nodes_data })

/-! ## XML cleaner (`app/utils/xml_cleaner.py`) -/

/-- Python `s.replace(old, new)` on character lists, fuelled by the input
length (each step consumes at least one character, so the fuel never runs
out): left-to-right, non-overlapping replacement. -/
def pyReplaceAux (old new : List Char) : Nat → List Char → List Char
  | 0, s => s
  | _ + 1, [] => []
  | fuel + 1, c :: rest =>
    if old.isPrefixOf (c :: rest) then
      new ++ pyReplaceAux old new fuel ((c :: rest).drop old.length)
    else
      c :: pyReplaceAux old new fuel rest

/-- Python `s.replace(old, new)` for a non-empty pattern (the cleaner only
ever replaces non-empty patterns). -/
def pyReplace (old new s : List Char) : List Char :=
  if old.isEmpty then s else pyReplaceAux old new s.length s

/-- The apostrophe character. -/
def aposChar : Char := Char.ofNat 39

/-- The double-quote character. -/
def quotChar : Char := Char.ofNat 34

/-- `XML_ESCAPE_MAP` in its Python dict insertion order (`&` first). -/
def XML_ESCAPE_MAP : List (List Char × List Char) :=
  [(['&'], "&amp;".toList),
   (['<'], "&lt;".toList),
   (['>'], "&gt;".toList),
   ([quotChar], "&quot;".toList),
   ([aposChar], "&apos;".toList)]

/-- `XML_UNESCAPE_MAP` in its Python dict insertion order (`&amp;` first —
the adjacent comment says it must be handled last, but iteration over the dict
visits it first). -/
def XML_UNESCAPE_MAP : List (List Char × List Char) :=
  [("&amp;".toList, ['&']),
   ("&lt;".toList, ['<']),
   ("&gt;".toList, ['>']),
   ("&quot;".toList, [quotChar]),
   ("&apos;".toList, [aposChar])]

/-- `XMLCleaner.escape_xml_chars`. -/
def escape_xml_chars (text : List Char) : List Char :=
  if text.isEmpty then text
  else XML_ESCAPE_MAP.foldl (fun s cr => pyReplace cr.1 cr.2 s) text

/-- `XMLCleaner.unescape_xml_chars`. -/
def unescape_xml_chars (text : List Char) : List Char :=
  if text.isEmpty then text
  else XML_UNESCAPE_MAP.foldl (fun s cr => pyReplace cr.1 cr.2 s) text

/-! ## Concrete inputs used by witnesses and counterexamples -/

/-- A graph whose only content is one subclass triple between two undeclared
entities: both endpoints materialize as dangling stub nodes. -/
def gStub : RDFGraph :=
  [⟨.uri "http://example.org/A", RDFS_subClassOf, .uri "http://example.org/B"⟩]

/-- A graph declaring a single class with no annotations. -/
def gClass : RDFGraph :=
  [⟨.uri "http://example.org/A", RDF_type, OWL_Class⟩]

/-- The node `parse_ontology` builds for the class in `gClass`. -/
def nodeA : TreeNode :=
  { id := "A", iri := some "http://example.org/A" }

/-- A part-of restriction graph: `C subClassOf R`, `R` an `owl:Restriction`
with `onProperty = PART_OF` and `someValuesFrom = D`. -/
def gPart : RDFGraph :=
  [⟨.uri "http://example.org/C", RDFS_subClassOf, .uri "ub1bL23C17"⟩,
   ⟨.uri "ub1bL23C17", RDF_type, OWL_Restriction⟩,
   ⟨.uri "ub1bL23C17", OWL_onProperty, PART_OF⟩,
   ⟨.uri "ub1bL23C17", OWL_someValuesFrom, .uri "http://example.org/D"⟩]

/-- A service state holding a previously built (now stale at time 4000)
snapshot. -/
def stDemo : ServiceState :=
  { cache := some [("A", stubNode "A")], cacheTimestamp := some 0 }

/-- A graph in which an entity carries an empty-string external-id annotation
literal. -/
def gEmptyId : RDFGraph :=
  [⟨.uri "http://purl.obolibrary.org/obo/MS_0001", OBOINOWL_id, .lit "" none⟩]

/-- The annotated entity of `gEmptyId`. -/
def uEmptyId : RTerm := .uri "http://purl.obolibrary.org/obo/MS_0001"

/-! ## Verification-side definitions -/

/-- Number of parent-edge occurrences `(p, T)` carried by the node with id
`c` (0 when no such node exists). -/
def countPar (d : NodeDict) (c p T : String) : Nat :=
  ((findNode d c).map
    (fun n => (n.parents.filter (fun e => decide (e.parentId = p ∧ e.relationType = T))).length)).getD 0

/-- Number of child-edge occurrences `(c, T)` carried by the node with id
`p` (0 when no such node exists). -/
def countChild (d : NodeDict) (p c T : String) : Nat :=
  ((findNode d p).map
    (fun n => (n.children.filter (fun e => decide (e.childId = c ∧ e.relationType = T))).length)).getD 0

/-- Reciprocity: every parent-edge occurrence is mirrored by exactly one
child-edge occurrence and vice versa. -/
def RecipInv (d : NodeDict) : Prop :=
  ∀ c p T, countPar d c p T = countChild d p c T

/-- Leaf consistency for one node: the leaf flag tracks emptiness of the child
list. -/
def LeafInv (n : TreeNode) : Prop :=
  n.isLeaf = n.children.isEmpty

/-- Python truthiness of an optional text field: present and non-empty. -/
def truthyField : Option String → Bool
  | none => false
  | some s => decide (s ≠ "")

/-- Spec-side field match (from the claim wording, with the truthiness caveat
the code forces): the query, case-folded, occurs in the field, case-folded,
and the field is present and non-empty. -/
def claimFieldMatch (q : String) (f : Option String) : Bool :=
  match f with
  | none => false
  | some s => decide (s ≠ "") && strContains (pyLower s) (pyLower q)

/-- Spec-side node match: at least one of the four text fields matches. -/
def specNodeMatch (q : String) (t : TreeNode) : Bool :=
  claimFieldMatch q t.label || claimFieldMatch q t.label_zh ||
    claimFieldMatch q t.definition || claimFieldMatch q t.definition_zh

/-- At least one of the four text fields is present and non-empty. -/
def hasTextField (t : TreeNode) : Bool :=
  truthyField t.label || truthyField t.label_zh ||
    truthyField t.definition || truthyField t.definition_zh

/-- Canonical id exactly as the claim words it: the external-id annotation
literal if present, otherwise the final path segment of the URI. -/
def claimCanonicalId (g : RDFGraph) (t : RTerm) : String :=
  match get_literal g t OBOINOWL_id none with
  | some v => v
  | none => lastSegment (termStr t)

/-- Canonical id as amended: the external-id annotation literal if present
and non-empty, otherwise the final path segment of the URI. -/
def amendedCanonicalId (g : RDFGraph) (t : RTerm) : String :=
  match get_literal g t OBOINOWL_id none with
  | some v => if v = "" then lastSegment (termStr t) else v
  | none => lastSegment (termStr t)

/-! ## Dictionary lemmas -/

theorem findNode_append (d e : NodeDict) (k : String) :
    findNode (d ++ e) k = (findNode d k).or (findNode e k) := by
  induction d with
  | nil => simp [findNode]
  | cons hd tl ih =>
    obtain ⟨k', v⟩ := hd
    by_cases h : k' = k <;> simp [findNode, h, ih]

theorem findNode_modify_self (d : NodeDict) (k : String) (f : TreeNode → TreeNode) :
    findNode (modifyNode d k f) k = (findNode d k).map f := by
  induction d with
  | nil => simp [findNode, modifyNode]
  | cons hd tl ih =>
    obtain ⟨k', v⟩ := hd
    by_cases h : k' = k <;> simp [findNode, modifyNode, h, ih]

theorem findNode_modify_ne (d : NodeDict) (k k' : String) (f : TreeNode → TreeNode)
    (h : k' ≠ k) : findNode (modifyNode d k f) k' = findNode d k' := by
  induction d with
  | nil => simp [modifyNode]
  | cons hd tl ih =>
    obtain ⟨k1, v⟩ := hd
    by_cases h1 : k1 = k
    · subst h1
      have h2 : k1 ≠ k' := fun hc => h (hc ▸ rfl)
      simp [modifyNode, findNode, h2]
    · by_cases h2 : k1 = k' <;> simp [modifyNode, findNode, h1, h2, ih, h]

theorem findNode_modify_isSome (d : NodeDict) (j k : String) (f : TreeNode → TreeNode) :
    (findNode (modifyNode d j f) k).isSome = (findNode d k).isSome := by
  by_cases h : k = j
  · subst h; rw [findNode_modify_self]; cases findNode d k <;> simp
  · rw [findNode_modify_ne _ _ _ _ h]

theorem findNode_map (d : NodeDict) (f : TreeNode → TreeNode) (k : String) :
    findNode (d.map (fun e => (e.1, f e.2))) k = (findNode d k).map f := by
  induction d with
  | nil => simp [findNode]
  | cons hd tl ih =>
    obtain ⟨k', v⟩ := hd
    by_cases h : k' = k <;> simp [findNode, h, ih]

theorem findNode_mem (d : NodeDict) (k : String) (n : TreeNode)
    (h : findNode d k = some n) : (k, n) ∈ d := by
  induction d with
  | nil => simp [findNode] at h
  | cons hd tl ih =>
    obtain ⟨k', v⟩ := hd
    by_cases h1 : k' = k
    · subst h1
      simp [findNode] at h
      simp [h]
    · simp [findNode, h1] at h
      exact List.mem_cons_of_mem _ (ih h)

theorem entries_modify (P : TreeNode → Prop) (d : NodeDict) (k : String)
    (f : TreeNode → TreeNode) (hd : ∀ e ∈ d, P e.2) (hf : ∀ v, P v → P (f v)) :
    ∀ e ∈ modifyNode d k f, P e.2 := by
  induction d with
  | nil => simp [modifyNode]
  | cons hd0 tl ih =>
    obtain ⟨k', v⟩ := hd0
    by_cases h1 : k' = k
    · subst h1
      simp only [modifyNode, if_pos rfl]
      intro e he
      rcases List.mem_cons.mp he with h | h
      · subst h; exact hf v (hd _ (List.mem_cons_self _ _))
      · exact hd _ (List.mem_cons_of_mem _ h)
    · simp only [modifyNode, if_neg h1]
      intro e he
      rcases List.mem_cons.mp he with h | h
      · subst h; exact hd _ (List.mem_cons_self _ _)
      · exact ih (fun e' he' => hd _ (List.mem_cons_of_mem _ he')) e h

theorem entries_dictSet (P : TreeNode → Prop) (d : NodeDict) (k : String) (v : TreeNode)
    (hd : ∀ e ∈ d, P e.2) (hv : P v) : ∀ e ∈ dictSet d k v, P e.2 := by
  unfold dictSet
  split
  · exact entries_modify P d k _ hd (fun _ _ => hv)
  · intro e he
    rcases List.mem_append.mp he with h | h
    · exact hd _ h
    · simp at h; subst h; exact hv

theorem findNode_ensure_self (d : NodeDict) (k : String) :
    findNode (ensureNode d k) k = some ((findNode d k).getD (stubNode k)) := by
  unfold ensureNode
  cases hfd : findNode d k with
  | some v => simp [hfd]
  | none => simp [hfd, findNode_append, findNode]

theorem findNode_ensure_ne (d : NodeDict) (k k' : String) (h : k' ≠ k) :
    findNode (ensureNode d k) k' = findNode d k' := by
  unfold ensureNode
  split
  · rfl
  · rw [findNode_append]
    have h' : k ≠ k' := fun hc => h hc.symm
    have : findNode [(k, stubNode k)] k' = none := by
      simp [findNode, h']
    rw [this]
    cases findNode d k' <;> rfl

theorem findNode_ensure_isSome (d : NodeDict) (j k : String)
    (h : (findNode d k).isSome = true) : (findNode (ensureNode d j) k).isSome = true := by
  by_cases h1 : k = j
  · subst h1; rw [findNode_ensure_self]; rfl
  · rw [findNode_ensure_ne _ _ _ h1]; exact h

theorem entries_ensure (P : TreeNode → Prop) (d : NodeDict) (k : String)
    (hd : ∀ e ∈ d, P e.2) (hs : P (stubNode k)) : ∀ e ∈ ensureNode d k, P e.2 := by
  unfold ensureNode
  split
  · exact hd
  · intro e he
    rcases List.mem_append.mp he with h | h
    · exact hd _ h
    · simp at h; subst h; exact hs

/-! ## Generic fold helpers -/

theorem foldl_inv {α β : Type} (P : β → Prop) (step : β → α → β)
    (h : ∀ b a, P b → P (step b a)) :
    ∀ (l : List α) (b : β), P b → P (l.foldl step b) := by
  intro l
  induction l with
  | nil => intro b hb; exact hb
  | cons a l ih => intro b hb; exact ih _ (h b a hb)

theorem foldl_measure_le {α β : Type} (μ : β → Nat) (step : β → α → β)
    (h : ∀ b a, μ b ≤ μ (step b a)) :
    ∀ (l : List α) (b : β), μ b ≤ μ (l.foldl step b) := by
  intro l
  induction l with
  | nil => intro b; exact Nat.le_refl _
  | cons a l ih => intro b; exact Nat.le_trans (h b a) (ih _)

theorem foldl_measure_succ_of_mem {α β : Type} (μ : β → Nat) (step : β → α → β)
    (h : ∀ b a, μ b ≤ μ (step b a)) (a : α) (hs : ∀ b, μ b + 1 ≤ μ (step b a)) :
    ∀ (l : List α), a ∈ l → ∀ b, μ b + 1 ≤ μ (l.foldl step b) := by
  intro l
  induction l with
  | nil => intro hm; simp at hm
  | cons a0 l ih =>
    intro hm b
    rcases List.mem_cons.mp hm with h0 | h0
    · subst h0
      exact Nat.le_trans (hs b) (foldl_measure_le μ step h l _)
    · exact Nat.le_trans (Nat.succ_le_succ (h b a0)) (ih h0 _)

theorem foldl_stable_of_mem {α β : Type} (S : β → Prop) (step : β → α → β)
    (hstab : ∀ b a, S b → S (step b a)) (a : α) (hest : ∀ b, S (step b a)) :
    ∀ (l : List α), a ∈ l → ∀ b, S (l.foldl step b) := by
  intro l
  induction l with
  | nil => intro hm; simp at hm
  | cons a0 l ih =>
    intro hm b
    rcases List.mem_cons.mp hm with h0 | h0
    · subst h0
      exact foldl_inv S step hstab l _ (hest b)
    · exact ih h0 _

/-! ## Edge-count lemmas -/

theorem countPar_modify_keep (d : NodeDict) (k : String) (f : TreeNode → TreeNode)
    (hf : ∀ n, (f n).parents = n.parents) (c p T : String) :
    countPar (modifyNode d k f) c p T = countPar d c p T := by
  by_cases h : c = k
  · subst h
    simp only [countPar, findNode_modify_self]
    cases findNode d c <;> simp [hf]
  · simp only [countPar, findNode_modify_ne _ _ _ _ h]

theorem countChild_modify_keep (d : NodeDict) (k : String) (f : TreeNode → TreeNode)
    (hf : ∀ n, (f n).children = n.children) (p c T : String) :
    countChild (modifyNode d k f) p c T = countChild d p c T := by
  by_cases h : p = k
  · subst h
    simp only [countChild, findNode_modify_self]
    cases findNode d p <;> simp [hf]
  · simp only [countChild, findNode_modify_ne _ _ _ _ h]

theorem countPar_ensure (d : NodeDict) (k c p T : String) :
    countPar (ensureNode d k) c p T = countPar d c p T := by
  by_cases h : c = k
  · subst h
    simp only [countPar, findNode_ensure_self]
    cases hfd : findNode d c with
    | none => simp [stubNode]
    | some n => simp
  · simp only [countPar, findNode_ensure_ne _ _ _ h]

theorem countChild_ensure (d : NodeDict) (k p c T : String) :
    countChild (ensureNode d k) p c T = countChild d p c T := by
  by_cases h : p = k
  · subst h
    simp only [countChild, findNode_ensure_self]
    cases hfd : findNode d p with
    | none => simp [stubNode]
    | some n => simp
  · simp only [countChild, findNode_ensure_ne _ _ _ h]

theorem findNode_ensure_pres (d : NodeDict) (j k : String)
    (h : (findNode d k).isSome = true) : findNode (ensureNode d j) k = findNode d k := by
  by_cases hk : k = j
  · subst hk
    rw [findNode_ensure_self]
    obtain ⟨n, hn⟩ := Option.isSome_iff_exists.mp h
    rw [hn]; rfl
  · exact findNode_ensure_ne _ _ _ hk

theorem countPar_modify_append (d : NodeDict) (k p0 T0 : String)
    (h : (findNode d k).isSome = true) (c p T : String) :
    countPar (modifyNode d k (fun n => { n with parents := n.parents ++ [⟨p0, T0⟩] })) c p T
      = countPar d c p T + (if c = k ∧ p = p0 ∧ T = T0 then 1 else 0) := by
  have hsing : (List.filter (fun e => decide (e.parentId = p ∧ e.relationType = T))
      [(⟨p0, T0⟩ : ParentRelation)]).length = if p = p0 ∧ T = T0 then 1 else 0 := by
    by_cases hp : p = p0 ∧ T = T0
    · obtain ⟨h1, h2⟩ := hp; subst h1; subst h2; simp [List.filter]
    · have h' : ¬(p0 = p ∧ T0 = T) := fun hx => hp ⟨hx.1.symm, hx.2.symm⟩
      simp [List.filter, h', hp]
  by_cases hc : c = k
  · subst hc
    obtain ⟨n, hn⟩ := Option.isSome_iff_exists.mp h
    simp only [countPar, findNode_modify_self, hn, Option.map_some', Option.getD_some,
      List.filter_append, List.length_append, hsing, true_and]
  · simp only [countPar, findNode_modify_ne _ _ _ _ hc, hc, false_and, if_false,
      Nat.add_zero]

theorem countChild_modify_append (d : NodeDict) (k c0 T0 : String)
    (h : (findNode d k).isSome = true) (p c T : String) :
    countChild (modifyNode d k
        (fun n => { n with children := n.children ++ [⟨c0, T0⟩], isLeaf := false })) p c T
      = countChild d p c T + (if p = k ∧ c = c0 ∧ T = T0 then 1 else 0) := by
  have hsing : (List.filter (fun e => decide (e.childId = c ∧ e.relationType = T))
      [(⟨c0, T0⟩ : ChildRelation)]).length = if c = c0 ∧ T = T0 then 1 else 0 := by
    by_cases hp : c = c0 ∧ T = T0
    · obtain ⟨h1, h2⟩ := hp; subst h1; subst h2; simp [List.filter]
    · have h' : ¬(c0 = c ∧ T0 = T) := fun hx => hp ⟨hx.1.symm, hx.2.symm⟩
      simp [List.filter, h', hp]
  by_cases hc : p = k
  · subst hc
    obtain ⟨n, hn⟩ := Option.isSome_iff_exists.mp h
    simp only [countChild, findNode_modify_self, hn, Option.map_some', Option.getD_some,
      List.filter_append, List.length_append, hsing, true_and]
  · simp only [countChild, findNode_modify_ne _ _ _ _ hc, hc, false_and, if_false,
      Nat.add_zero]

theorem countPar_addEdge (d : NodeDict) (c0 p0 T0 c p T : String) :
    countPar (addEdge d c0 p0 T0) c p T
      = countPar d c p T + (if c = c0 ∧ p = p0 ∧ T = T0 then 1 else 0) := by
  simp only [addEdge]
  rw [countPar_modify_keep _ p0
    (fun n => { n with children := n.children ++ [⟨c0, T0⟩], isLeaf := false })
    (fun n => rfl)]
  rw [countPar_modify_append _ _ _ _
    (findNode_ensure_isSome _ _ _ (by rw [findNode_ensure_self]; rfl))]
  rw [countPar_ensure, countPar_ensure]

theorem countChild_addEdge (d : NodeDict) (c0 p0 T0 p c T : String) :
    countChild (addEdge d c0 p0 T0) p c T
      = countChild d p c T + (if p = p0 ∧ c = c0 ∧ T = T0 then 1 else 0) := by
  simp only [addEdge]
  rw [countChild_modify_append _ _ _ _
    (by rw [findNode_modify_isSome, findNode_ensure_self]; rfl)]
  rw [countChild_modify_keep _ c0
    (fun n => { n with parents := n.parents ++ [⟨p0, T0⟩] })
    (fun n => rfl)]
  rw [countChild_ensure, countChild_ensure]

theorem findNode_step4 (d : NodeDict) (k : String) :
    findNode (step4 d) k
      = (findNode d k).map (fun n => { n with count := n.children.length }) :=
  findNode_map d (fun n => { n with count := n.children.length }) k

theorem countPar_step4 (d : NodeDict) (c p T : String) :
    countPar (step4 d) c p T = countPar d c p T := by
  simp only [countPar, findNode_step4]
  cases findNode d c <;> simp

theorem countChild_step4 (d : NodeDict) (p c T : String) :
    countChild (step4 d) p c T = countChild d p c T := by
  simp only [countChild, findNode_step4]
  cases findNode d p <;> simp

/-! ## Reciprocity through the build passes -/

theorem addEdge_recip (d : NodeDict) (c0 p0 T0 : String) (h : RecipInv d) :
    RecipInv (addEdge d c0 p0 T0) := by
  intro c p T
  rw [countPar_addEdge, countChild_addEdge, h c p T]
  have hiff : (c = c0 ∧ p = p0 ∧ T = T0) ↔ (p = p0 ∧ c = c0 ∧ T = T0) := by tauto
  rw [if_congr hiff rfl rfl]

theorem step1_edge_free (g : RDFGraph) :
    ∀ e ∈ step1 g, e.2.parents = [] ∧ e.2.children = [] ∧ e.2.isLeaf = true := by
  unfold step1
  exact foldl_inv
    (fun (d : NodeDict) => ∀ e ∈ d, e.2.parents = [] ∧ e.2.children = [] ∧ e.2.isLeaf = true) _
    (fun d s hd => entries_dictSet
      (fun n => n.parents = [] ∧ n.children = [] ∧ n.isLeaf = true) _ _ _ hd
      ⟨rfl, rfl, rfl⟩) _ [] (by simp)

theorem recip_of_edge_free (d : NodeDict)
    (h : ∀ e ∈ d, e.2.parents = [] ∧ e.2.children = [] ∧ e.2.isLeaf = true) :
    RecipInv d := by
  intro c p T
  simp only [countPar, countChild]
  cases hc : findNode d c with
  | none =>
    cases hp : findNode d p with
    | none => rfl
    | some m =>
      have hch : m.children = [] := (h _ (findNode_mem _ _ _ hp)).2.1
      simp [hch]
  | some n =>
    have hpar : n.parents = [] := (h _ (findNode_mem _ _ _ hc)).1
    cases hp : findNode d p with
    | none => simp [hpar]
    | some m =>
      have hch : m.children = [] := (h _ (findNode_mem _ _ _ hp)).2.1
      simp [hpar, hch]

theorem step2Body_recip (g : RDFGraph) (d : NodeDict) (t : Triple) (h : RecipInv d) :
    RecipInv (step2Body g d t) := by
  unfold step2Body
  split
  · exact h
  · exact addEdge_recip _ _ _ _ h

theorem step3One_recip (g : RDFGraph) (s r : RTerm) (d : NodeDict) (h : RecipInv d) :
    RecipInv (step3One g d s r) := by
  unfold step3One
  refine foldl_inv RecipInv _ ?_ _ _ h
  intro d1 prop h1
  split
  · unfold addPartOfEdges
    exact foldl_inv RecipInv _ (fun d2 u h2 => addEdge_recip _ _ _ _ h2) _ _ h1
  · exact h1

theorem parse_recip (g : RDFGraph) : RecipInv (parse_ontology g) := by
  unfold parse_ontology
  have h1 : RecipInv (step1 g) := recip_of_edge_free _ (step1_edge_free g)
  have h2 : RecipInv (step2 g (step1 g)) := by
    unfold step2
    exact foldl_inv RecipInv _ (fun d t hd => step2Body_recip g d t hd) _ _ h1
  have h3 : RecipInv (step3 g (step2 g (step1 g))) := by
    unfold step3
    refine foldl_inv RecipInv _ ?_ _ _ h2
    intro d t hd
    unfold step3Body
    split
    · exact step3One_recip g _ _ _ hd
    · exact hd
  intro c p T
  rw [countPar_step4, countChild_step4]
  exact h3 c p T

/-! ## Leaf/count consistency through the build passes -/

theorem addEdge_leafinv (d : NodeDict) (c0 p0 T0 : String)
    (h : ∀ e ∈ d, LeafInv e.2) : ∀ e ∈ addEdge d c0 p0 T0, LeafInv e.2 := by
  simp only [addEdge]
  apply entries_modify LeafInv
  · apply entries_modify LeafInv
    · apply entries_ensure LeafInv
      · apply entries_ensure LeafInv
        · exact h
        · rfl
      · rfl
    · intro v hv
      exact hv
  · intro v _
    unfold LeafInv
    cases v.children <;> rfl

theorem leafinv_parse (g : RDFGraph) :
    ∀ e ∈ parse_ontology g, LeafInv e.2 ∧ e.2.count = e.2.children.length := by
  have h1 : ∀ e ∈ step1 g, LeafInv e.2 := by
    intro e he
    obtain ⟨_, hc, hl⟩ := step1_edge_free g e he
    unfold LeafInv
    rw [hl, hc]
    rfl
  have h2 : ∀ e ∈ step2 g (step1 g), LeafInv e.2 := by
    unfold step2
    refine foldl_inv (fun (d : NodeDict) => ∀ e ∈ d, LeafInv e.2) _ ?_ _ _ h1
    intro d t hd
    unfold step2Body
    split
    · exact hd
    · exact addEdge_leafinv _ _ _ _ hd
  have h3 : ∀ e ∈ step3 g (step2 g (step1 g)), LeafInv e.2 := by
    unfold step3
    refine foldl_inv (fun (d : NodeDict) => ∀ e ∈ d, LeafInv e.2) _ ?_ _ _ h2
    intro d t hd
    unfold step3Body
    split
    · unfold step3One
      refine foldl_inv (fun (d : NodeDict) => ∀ e ∈ d, LeafInv e.2) _ ?_ _ _ hd
      intro d1 prop hd1
      split
      · unfold addPartOfEdges
        exact foldl_inv (fun (d : NodeDict) => ∀ e ∈ d, LeafInv e.2) _
          (fun d2 u hd2 => addEdge_leafinv _ _ _ _ hd2) _ _ hd1
      · exact hd1
    · exact hd
  intro e he
  unfold parse_ontology step4 at he
  obtain ⟨e', he', heq⟩ := List.mem_map.mp he
  subst heq
  refine ⟨h3 e' he', rfl⟩

/-- C2: for every graph produced by one full build pass and all node ids `p`,
`c` and relation type `T`, the node `c` carries a parent-edge `(p, T)` exactly
as many times as the node `p` carries a child-edge `(c, T)`: parent-edge and
child-edge occurrences are in bijection, so each side exists iff the other
does, with exactly one occurrence per occurrence. -/
theorem reciprocity_parse_ontology (g : RDFGraph) (c p T : String) :
    countPar (parse_ontology g) c p T = countChild (parse_ontology g) p c T :=
  parse_recip g c p T

/-- C6: for every graph produced by one full build pass and every node in it,
`count` equals the length of `children`, and `isLeaf` holds iff the node has
zero child edges. -/
theorem leaf_count_consistency (g : RDFGraph) (k : String) (n : TreeNode)
    (h : findNode (parse_ontology g) k = some n) :
    n.count = n.children.length ∧ (n.isLeaf = true ↔ n.children = []) := by
  obtain ⟨hli, hc⟩ := leafinv_parse g (k, n) (findNode_mem _ _ _ h)
  refine ⟨hc, ?_⟩
  unfold LeafInv at hli
  constructor
  · intro hl
    rw [hl] at hli
    cases hcase : n.children with
    | nil => rfl
    | cons a l => rw [hcase] at hli; simp at hli
  · intro hc2
    rw [hc2] at hli
    simpa using hli

/-- Witness for C6 at a concrete one-class graph. -/
theorem leaf_count_consistency_witness :
    nodeA.count = nodeA.children.length ∧ (nodeA.isLeaf = true ↔ nodeA.children = []) :=
  leaf_count_consistency gClass "A" nodeA (by decide)

/-! ## Restriction-encoded part-of edges (Step 3 behaviour) -/

theorem addEdge_isLeaf_parent (d : NodeDict) (c0 p0 T0 : String) :
    (findNode (addEdge d c0 p0 T0) p0).map TreeNode.isLeaf = some false := by
  simp only [addEdge]
  rw [findNode_modify_self, Option.map_map]
  have h : (findNode (modifyNode (ensureNode (ensureNode d c0) p0) c0
      (fun n => { n with parents := n.parents ++ [⟨p0, T0⟩] })) p0).isSome = true := by
    rw [findNode_modify_isSome, findNode_ensure_self]
    rfl
  obtain ⟨n, hn⟩ := Option.isSome_iff_exists.mp h
  rw [hn]
  rfl

theorem addEdge_isLeaf_pres (d : NodeDict) (c0 p0 T0 k : String)
    (h : (findNode d k).map TreeNode.isLeaf = some false) :
    (findNode (addEdge d c0 p0 T0) k).map TreeNode.isLeaf = some false := by
  by_cases hk : k = p0
  · subst hk
    exact addEdge_isLeaf_parent d c0 k T0
  · obtain ⟨n, hn, hnl⟩ : ∃ n, findNode d k = some n ∧ n.isLeaf = false := by
      cases hfd : findNode d k with
      | none => rw [hfd] at h; simp at h
      | some n => rw [hfd] at h; simp at h; exact ⟨n, rfl, h⟩
    simp only [addEdge]
    rw [findNode_modify_ne _ _ _ _ hk]
    by_cases hk2 : k = c0
    · subst hk2
      have e1 : findNode (ensureNode d k) k = some n := by
        rw [findNode_ensure_pres _ _ _ (by rw [hn]; rfl)]
        exact hn
      have e2 : findNode (ensureNode (ensureNode d k) p0) k = some n := by
        rw [findNode_ensure_ne _ _ _ hk]
        exact e1
      rw [findNode_modify_self, e2]
      simpa using hnl
    · rw [findNode_modify_ne _ _ _ _ hk2]
      rw [findNode_ensure_ne _ _ _ hk, findNode_ensure_ne _ _ _ hk2]
      rw [hn]
      simpa using hnl

theorem foldl_id_of_all {α β : Type} (step : β → α → β) (l : List α)
    (h : ∀ b, ∀ x ∈ l, step b x = b) : ∀ b, l.foldl step b = b := by
  induction l with
  | nil => intro b; rfl
  | cons a l ih =>
    intro b
    rw [List.foldl_cons, h b a (List.mem_cons_self _ _)]
    exact ih (fun b' x hx => h b' x (List.mem_cons_of_mem _ hx)) b

/-- C5: a subclass-of triple whose object is typed as a restriction is
excluded from `SubClassOf` edge creation (Step 2 skips it); during Step 3, if
the restriction carries an on-property value equal to the part-of property
and a some-values-from target, a reciprocal `partOf` edge pair between the
resolved subject and target is appended (stub nodes being created as needed by
`addEdge`) and the target's `isLeaf` becomes false; a restriction with no
matching on-property value, or with no some-values-from triple, produces no
edge (and, being total, no error). -/
theorem restriction_partof_handling (g : RDFGraph) (d : NodeDict) (s r tgt prop : RTerm) :
    (hasTriple g ⟨r, RDF_type, OWL_Restriction⟩ = true →
      step2Body g d ⟨s, RDFS_subClassOf, r⟩ = d)
    ∧ (prop ∈ objectsOf g r OWL_onProperty → termStr prop = termStr PART_OF →
        tgt ∈ objectsOf g r OWL_someValuesFrom →
        countPar d (step3ChildId g s) (step3TargetId g tgt) "partOf" + 1
            ≤ countPar (step3One g d s r) (step3ChildId g s) (step3TargetId g tgt) "partOf"
        ∧ countChild d (step3TargetId g tgt) (step3ChildId g s) "partOf" + 1
            ≤ countChild (step3One g d s r) (step3TargetId g tgt) (step3ChildId g s) "partOf"
        ∧ (findNode (step3One g d s r) (step3TargetId g tgt)).map TreeNode.isLeaf
            = some false)
    ∧ ((∀ q ∈ objectsOf g r OWL_onProperty, termStr q ≠ termStr PART_OF) →
        step3One g d s r = d)
    ∧ (objectsOf g r OWL_someValuesFrom = [] → step3One g d s r = d) := by
  refine ⟨?_, ?_, ?_, ?_⟩
  · intro h
    simp [step2Body, h]
  · intro hp hps ht
    have innerMonoPar : ∀ (d2 : NodeDict) (u : RTerm),
        countPar d2 (step3ChildId g s) (step3TargetId g tgt) "partOf"
          ≤ countPar (addEdge d2 (step3ChildId g s) (step3TargetId g u) "partOf")
              (step3ChildId g s) (step3TargetId g tgt) "partOf" := by
      intro d2 u
      rw [countPar_addEdge]
      exact Nat.le_add_right _ _
    have innerStrictPar : ∀ d2 : NodeDict,
        countPar d2 (step3ChildId g s) (step3TargetId g tgt) "partOf" + 1
          ≤ countPar (addEdge d2 (step3ChildId g s) (step3TargetId g tgt) "partOf")
              (step3ChildId g s) (step3TargetId g tgt) "partOf" := by
      intro d2
      rw [countPar_addEdge]
      simp
    have innerMonoChild : ∀ (d2 : NodeDict) (u : RTerm),
        countChild d2 (step3TargetId g tgt) (step3ChildId g s) "partOf"
          ≤ countChild (addEdge d2 (step3ChildId g s) (step3TargetId g u) "partOf")
              (step3TargetId g tgt) (step3ChildId g s) "partOf" := by
      intro d2 u
      rw [countChild_addEdge]
      exact Nat.le_add_right _ _
    have innerStrictChild : ∀ d2 : NodeDict,
        countChild d2 (step3TargetId g tgt) (step3ChildId g s) "partOf" + 1
          ≤ countChild (addEdge d2 (step3ChildId g s) (step3TargetId g tgt) "partOf")
              (step3TargetId g tgt) (step3ChildId g s) "partOf" := by
      intro d2
      rw [countChild_addEdge]
      simp
    refine ⟨?_, ?_, ?_⟩
    · unfold step3One
      refine foldl_measure_succ_of_mem
        (fun d0 => countPar d0 (step3ChildId g s) (step3TargetId g tgt) "partOf")
        _ ?_ prop ?_ _ hp d
      · intro b a
        dsimp only
        split
        · unfold addPartOfEdges
          exact foldl_measure_le _ _ innerMonoPar _ b
        · exact Nat.le_refl _
      · intro b
        dsimp only
        rw [if_pos hps]
        unfold addPartOfEdges
        exact foldl_measure_succ_of_mem _ _ innerMonoPar tgt innerStrictPar _ ht b
    · unfold step3One
      refine foldl_measure_succ_of_mem
        (fun d0 => countChild d0 (step3TargetId g tgt) (step3ChildId g s) "partOf")
        _ ?_ prop ?_ _ hp d
      · intro b a
        dsimp only
        split
        · unfold addPartOfEdges
          exact foldl_measure_le _ _ innerMonoChild _ b
        · exact Nat.le_refl _
      · intro b
        dsimp only
        rw [if_pos hps]
        unfold addPartOfEdges
        exact foldl_measure_succ_of_mem _ _ innerMonoChild tgt innerStrictChild _ ht b
    · unfold step3One
      refine foldl_stable_of_mem
        (fun d0 => (findNode d0 (step3TargetId g tgt)).map TreeNode.isLeaf = some false)
        _ ?_ prop ?_ _ hp d
      · intro b a hb
        dsimp only
        split
        · unfold addPartOfEdges
          exact foldl_inv
            (fun d0 => (findNode d0 (step3TargetId g tgt)).map TreeNode.isLeaf = some false)
            _ (fun d2 u h2 => addEdge_isLeaf_pres _ _ _ _ _ h2) _ _ hb
        · exact hb
      · intro b
        dsimp only
        rw [if_pos hps]
        unfold addPartOfEdges
        exact foldl_stable_of_mem
          (fun d0 => (findNode d0 (step3TargetId g tgt)).map TreeNode.isLeaf = some false)
          _ (fun d2 u h2 => addEdge_isLeaf_pres _ _ _ _ _ h2) tgt
          (fun d2 => addEdge_isLeaf_parent _ _ _ _) _ ht b
  · intro hnone
    unfold step3One
    apply foldl_id_of_all
    intro b x hx
    simp [hnone x hx]
  · intro hempty
    unfold step3One
    apply foldl_id_of_all
    intro b x hx
    unfold addPartOfEdges
    rw [hempty]
    split <;> rfl

/-- Witness for C5 at a concrete restriction graph. -/
theorem restriction_partof_handling_witness :
    (step2Body gPart []
        ⟨.uri "http://example.org/C", RDFS_subClassOf, .uri "ub1bL23C17"⟩ = [])
    ∧ countPar [] (step3ChildId gPart (.uri "http://example.org/C"))
          (step3TargetId gPart (.uri "http://example.org/D")) "partOf" + 1
        ≤ countPar
            (step3One gPart [] (.uri "http://example.org/C") (.uri "ub1bL23C17"))
            (step3ChildId gPart (.uri "http://example.org/C"))
            (step3TargetId gPart (.uri "http://example.org/D")) "partOf"
    ∧ (findNode (step3One gPart [] (.uri "http://example.org/C") (.uri "ub1bL23C17"))
          (step3TargetId gPart (.uri "http://example.org/D"))).map TreeNode.isLeaf
        = some false := by
  have h := restriction_partof_handling gPart []
    (.uri "http://example.org/C") (.uri "ub1bL23C17") (.uri "http://example.org/D") PART_OF
  have hb := h.2.1 (by decide) (by decide) (by decide)
  exact ⟨h.1 (by decide), hb.1, hb.2.2⟩

/-! ## Search -/

theorem if_chain {α : Type} (c1 c2 c3 c4 : Bool) (x y : α) :
    (if c1 then x else if c2 then x else if c3 then x else if c4 then x else y)
      = (if c1 || c2 || c3 || c4 then x else y) := by
  cases c1 <;> cases c2 <;> cases c3 <;> cases c4 <;> simp

theorem foldl_filter_append {α : Type} (p : α → Bool) :
    ∀ (l acc : List α),
      l.foldl (fun res a => if p a then res ++ [a] else res) acc = acc ++ l.filter p := by
  intro l
  induction l with
  | nil => intro acc; simp
  | cons a l ih =>
    intro acc
    rw [List.foldl_cons]
    cases hp : p a <;> simp [hp, ih, List.filter_cons]

theorem containsSub_nil (l : List Char) : containsSub l [] = true := by
  cases l <;> simp [containsSub, List.isPrefixOf]

theorem search_terms_eq_filter (q : String) (d : NodeDict) :
    search_terms q d = (dictValues d).filter (specNodeMatch q) := by
  unfold search_terms
  have hfun : ∀ (results : List TreeNode) (term : TreeNode),
      (if fieldMatch (pyLower q) term.label then results ++ [term]
       else if fieldMatch (pyLower q) term.label_zh then results ++ [term]
       else if fieldMatch (pyLower q) term.definition then results ++ [term]
       else if fieldMatch (pyLower q) term.definition_zh then results ++ [term]
       else results)
        = (if specNodeMatch q term then results ++ [term] else results) := by
    intro results term
    rw [if_chain]
    rfl
  simp only [hfun]
  exact foldl_filter_append _ _ []

theorem claimFieldMatch_empty (f : Option String) : claimFieldMatch "" f = truthyField f := by
  cases f with
  | none => rfl
  | some s =>
    show (decide (s ≠ "") && strContains (pyLower s) (pyLower "")) = decide (s ≠ "")
    have h : strContains (pyLower s) (pyLower "") = true := containsSub_nil _
    rw [h, Bool.and_true]

/-- Counterexample to C1 as stated: a snapshot built from a lone subclass
triple consists of two stub nodes whose four text fields are all absent;
`search("")` returns the empty list rather than all nodes. -/
theorem search_empty_misses_stubs :
    search_terms "" (parse_ontology gStub) = []
    ∧ dictValues (parse_ontology gStub) ≠ [] :=
  ⟨by decide, by decide⟩

/-- C1 (amended): `search(q)` returns exactly the nodes, in snapshot iteration
order, for which `q` case-folded is a substring of at least one of the four
text fields (label, label_zh, definition, definition_zh) that is present and
non-empty, case-folded; consequently `search("")` returns exactly the nodes
with at least one present, non-empty text field — nodes with all four fields
absent (stubs) are never returned. -/
theorem search_terms_spec (q : String) (d : NodeDict) :
    search_terms q d = (dictValues d).filter (specNodeMatch q)
    ∧ search_terms "" d = (dictValues d).filter hasTextField := by
  refine ⟨search_terms_eq_filter q d, ?_⟩
  rw [search_terms_eq_filter "" d]
  apply List.filter_congr
  intro t _
  show specNodeMatch "" t = hasTextField t
  unfold specNodeMatch hasTextField
  rw [claimFieldMatch_empty, claimFieldMatch_empty, claimFieldMatch_empty,
    claimFieldMatch_empty]

/-! ## Statistics -/

theorem relCounts_eq (ps : List ParentRelation) :
    ∀ a b : Nat, relCounts ps (a, b)
      = (a + (ps.filter (fun p => decide (p.relationType = "subClassOf"))).length,
         b + (ps.filter (fun p => decide (p.relationType = "partOf"))).length) := by
  induction ps with
  | nil => intro a b; simp [relCounts]
  | cons p ps ih =>
    intro a b
    have hstep : relCounts (p :: ps) (a, b)
        = relCounts ps (if p.relationType = "subClassOf" then (a + 1, b)
            else if p.relationType = "partOf" then (a, b + 1) else (a, b)) := rfl
    rw [hstep]
    by_cases h1 : p.relationType = "subClassOf"
    · have h2 : ¬p.relationType = "partOf" := by rw [h1]; decide
      rw [if_pos h1, ih]
      simp only [List.filter_cons, h1, h2, decide_True, decide_False, if_true]
      simp [Prod.ext_iff]
      omega
    · by_cases h2 : p.relationType = "partOf"
      · rw [if_neg h1, if_pos h2, ih]
        simp only [List.filter_cons, h1, h2, decide_True, decide_False]
        simp [Prod.ext_iff]
        omega
      · rw [if_neg h1, if_neg h2, ih]
        simp only [List.filter_cons, h1, h2, decide_False]
        simp

theorem statsFold_eq (terms : List TreeNode) :
    ∀ a b c m : Nat,
      terms.foldl statsStep (a, b, c, m)
        = (a + (terms.map (fun t =>
              (t.parents.filter (fun p => decide (p.relationType = "subClassOf"))).length)).sum,
           b + (terms.map (fun t =>
              (t.parents.filter (fun p => decide (p.relationType = "partOf"))).length)).sum,
           c + (terms.filter (fun t => t.isLeaf)).length,
           (terms.map (fun t => t.parents.length)).foldl max m) := by
  induction terms with
  | nil => intro a b c m; simp
  | cons t ts ih =>
    intro a b c m
    rw [List.foldl_cons]
    have hstep : statsStep (a, b, c, m) t
        = (a + (t.parents.filter (fun p => decide (p.relationType = "subClassOf"))).length,
           b + (t.parents.filter (fun p => decide (p.relationType = "partOf"))).length,
           (if t.isLeaf then c + 1 else c), max m t.parents.length) := by
      unfold statsStep
      rw [show ((a, b, c, m) : Nat × Nat × Nat × Nat).1 = a from rfl]
      simp only [relCounts_eq]
    rw [hstep, ih]
    simp only [List.map_cons, List.sum_cons, List.filter_cons, List.foldl_cons]
    cases hl : t.isLeaf <;> simp [hl, Prod.ext_iff] <;> omega

/-- C8: for every snapshot, `get_statistics` returns `subClassOf_relations`
and `partOf_relations` equal to the per-type parent-edge totals over all
nodes, `total_relations` equal to their sum, `leaf_nodes` equal to the number
of nodes with `isLeaf` set, `max_depth` equal to the maximum over nodes of the
number of direct parent-edges held by a single node (not a longest-path
depth), and `total_terms` equal to the number of nodes. -/
theorem get_statistics_spec (d : NodeDict) :
    (get_statistics d).total_terms = (dictValues d).length
    ∧ (get_statistics d).subClassOf_relations
        = ((dictValues d).map (fun t =>
            (t.parents.filter (fun p => decide (p.relationType = "subClassOf"))).length)).sum
    ∧ (get_statistics d).partOf_relations
        = ((dictValues d).map (fun t =>
            (t.parents.filter (fun p => decide (p.relationType = "partOf"))).length)).sum
    ∧ (get_statistics d).total_relations
        = (get_statistics d).subClassOf_relations + (get_statistics d).partOf_relations
    ∧ (get_statistics d).leaf_nodes = ((dictValues d).filter (fun t => t.isLeaf)).length
    ∧ (get_statistics d).max_depth
        = ((dictValues d).map (fun t => t.parents.length)).foldl max 0 := by
  simp only [get_statistics]
  rw [statsFold_eq]
  simp

/-! ## Export -/

/-- C9: the exported object records `metadata.total_nodes` equal to
`statistics().total_terms` at export time, its `nodes` mapping is exactly the
live node dictionary (every node id appears, each with the full node record),
and when no destination is supplied the output path is the synthesized
timestamped name. -/
theorem export_snapshot_spec (d : NodeDict) (out : Option String) (ts iso : String) :
    (save_nodes_to_json d out ts iso).2.metadata.total_nodes = (get_statistics d).total_terms
    ∧ (save_nodes_to_json d out ts iso).2.nodes = d
    ∧ (save_nodes_to_json d none ts iso).1 = "ontology_nodes_" ++ ts ++ ".json" := by
  refine ⟨?_, ?_, ?_⟩
  · unfold save_nodes_to_json get_statistics
    cases out <;> simp [dictValues]
  · unfold save_nodes_to_json
    cases out <;> simp
  · rfl

/-! ## Cache and rebuild-failure behaviour -/

/-- Counterexample to C3 as stated: with a previously built snapshot cached
(at time 0) and a rebuild triggered by staleness at time 4000, a source
failure makes the operation raise (`none`) instead of serving the last good
snapshot. -/
theorem stale_rebuild_failure_counterexample :
    stDemo.cache.isSome = true
    ∧ (get_parsed_data none stDemo 4000).1 = none
    ∧ (get_parsed_data none stDemo 4000).1 ≠ stDemo.cache :=
  ⟨rfl, by decide, by decide⟩

/-- C3 (amended): when a rebuild attempt is triggered and the source fails,
the failure is always propagated to the caller — whether or not a prior
snapshot exists, the stale snapshot is not served — and the cached service
state is left unchanged (the failed attempt is atomic). -/
theorem rebuild_failure_atomic (st : ServiceState) (now : Int)
    (h : needsRebuild st now = true) :
    get_parsed_data none st now = (none, st) := by
  unfold get_parsed_data
  rw [if_pos h]

/-- Witness for the amended C3 at a stale cached state. -/
theorem rebuild_failure_atomic_witness :
    needsRebuild stDemo 4000 = true ∧ get_parsed_data none stDemo 4000 = (none, stDemo) :=
  ⟨by decide, rebuild_failure_atomic stDemo 4000 (by decide)⟩

/-- C4: on any operation the service rebuilds iff no snapshot exists or the
elapsed time since the last build exceeds the TTL; otherwise it serves the
existing snapshot with the state untouched; two successive operations against
an unchanged source observe the identical snapshot; and after `clear_cache`
the next access rebuilds unconditionally, at any time.  (The hypothesis links
the two cache fields, which every reachable state satisfies: both are set, or
both are `None`.) -/
theorem cache_policy (st : ServiceState) (now t2 : Int) (g : NodeDict)
    (hco : st.cache.isSome = st.cacheTimestamp.isSome) :
    (needsRebuild st now = true ↔
      (st.cache = none ∨ now - st.cacheTimestamp.getD 0 > CACHE_TTL))
    ∧ (needsRebuild st now = false → get_parsed_data (some g) st now = (st.cache, st))
    ∧ ((st.cache = none ∨ st.cache = some g) →
        (get_parsed_data (some g) st now).1 = some g
        ∧ (get_parsed_data (some g) ((get_parsed_data (some g) st now).2) t2).1 = some g)
    ∧ needsRebuild (clear_cache st) t2 = true := by
  refine ⟨?_, ?_, ?_, rfl⟩
  · unfold needsRebuild
    cases hc : st.cache with
    | none => simp
    | some c =>
      cases hts : st.cacheTimestamp with
      | none => rw [hc, hts] at hco; simp at hco
      | some ts => simp
  · intro h
    unfold get_parsed_data
    rw [if_neg (by rw [h]; exact Bool.false_ne_true)]
  · intro hg
    have h1 : (get_parsed_data (some g) st now).1 = some g
        ∧ (get_parsed_data (some g) st now).2.cache = some g := by
      unfold get_parsed_data
      by_cases h : needsRebuild st now = true
      · rw [if_pos h]
        exact ⟨rfl, rfl⟩
      · rw [if_neg h]
        have hs : st.cache.isSome = true := by
          unfold needsRebuild at h
          simp only [Bool.or_eq_true, not_or, Bool.not_eq_true] at h
          cases hcc : st.cache with
          | none => rw [hcc] at h; simp at h
          | some c => rfl
        rcases hg with hnone | hsome
        · rw [hnone] at hs; simp at hs
        · exact ⟨hsome, hsome⟩
    refine ⟨h1.1, ?_⟩
    have h2 := h1.2
    set st1 := (get_parsed_data (some g) st now).2 with hst1
    unfold get_parsed_data
    by_cases h : needsRebuild st1 t2 = true
    · rw [if_pos h]
    · rw [if_neg h]
      exact h2

/-- Witness for C4 at a concrete cached state. -/
theorem cache_policy_witness :
    (needsRebuild stDemo 100 = true ↔
      (stDemo.cache = none ∨ (100 : Int) - stDemo.cacheTimestamp.getD 0 > CACHE_TTL))
    ∧ (needsRebuild stDemo 100 = false →
        get_parsed_data (some [("A", stubNode "A")]) stDemo 100 = (stDemo.cache, stDemo))
    ∧ ((stDemo.cache = none ∨ stDemo.cache = some [("A", stubNode "A")]) →
        (get_parsed_data (some [("A", stubNode "A")]) stDemo 100).1
            = some [("A", stubNode "A")]
        ∧ (get_parsed_data (some [("A", stubNode "A")])
              ((get_parsed_data (some [("A", stubNode "A")]) stDemo 100).2) 200).1
            = some [("A", stubNode "A")])
    ∧ needsRebuild (clear_cache stDemo) 200 = true :=
  cache_policy stDemo 100 200 [("A", stubNode "A")] rfl

/-! ## Identifier resolution -/

/-- Counterexample to C7 as stated: an entity carrying an empty-string
external-id annotation literal (the annotation is present) resolves to the
URI's final path segment, not to the literal, because Python's `or` treats the
empty string as falsy. -/
theorem empty_annotation_id_counterexample :
    get_literal gEmptyId uEmptyId OBOINOWL_id none = some ""
    ∧ step1NodeId gEmptyId uEmptyId = "MS_0001"
    ∧ claimCanonicalId gEmptyId uEmptyId = ""
    ∧ step1NodeId gEmptyId uEmptyId ≠ claimCanonicalId gEmptyId uEmptyId :=
  ⟨by decide, by decide, by decide, by decide⟩

/-- C7 (amended): within one build pass over a fixed triple set, every one of
the five resolution sites (declared class, Step 2 child, Step 2 parent,
Step 3 child, Step 3 restriction target) computes the same canonical id for
the same entity reference: the external-id annotation literal if present and
non-empty, otherwise the final path segment of the URI. -/
theorem id_resolution_deterministic (g : RDFGraph) (t : RTerm) :
    step1NodeId g t = amendedCanonicalId g t
    ∧ step2ChildId g t = amendedCanonicalId g t
    ∧ step2ParentId g t = amendedCanonicalId g t
    ∧ step3ChildId g t = amendedCanonicalId g t
    ∧ step3TargetId g t = amendedCanonicalId g t := by
  have h : pyOrStr (get_literal g t OBOINOWL_id none) (lastSegment (termStr t))
      = amendedCanonicalId g t := by
    unfold pyOrStr amendedCanonicalId
    cases get_literal g t OBOINOWL_id none <;> rfl
  exact ⟨h, h, h, h, h⟩

/-! ## XML escape/unescape round-trip -/

/-- C10: the escape/unescape pair is not a round-trip identity: on the input
`"&lt;"`, escaping yields `"&amp;lt;"` and unescaping that yields `"<"` — the
unescape map replaces `&amp;` first even though its own comment says it must
be handled last. -/
theorem xml_roundtrip_failure :
    unescape_xml_chars (escape_xml_chars "&lt;".toList) = "<".toList
    ∧ unescape_xml_chars (escape_xml_chars "&lt;".toList) ≠ "&lt;".toList :=
  ⟨by decide, by decide⟩
